import Mathlib

/-!
Verification of the entity-registry core of `pulseaudio-mixer-cli.py`
(class `PAMenu` and its helpers), shallowly embedded in Lean.

Modelling conventions:
* `PAMenu` is a Python `dict` subclass mapping display names to
  `(iface, dbus-object)` pairs.  We model it as an insertion-ordered
  association list with the usual Python-dict update semantics
  (`dictSet` overwrites in place, keeping the position of an existing
  key, and appends new keys at the end; `dictDel` removes a key).
  The dbus object handle is represented by its object path.
* D-Bus property lists (`PropertyList`) are association lists of
  string keys to already-decoded string values; `_dbus_dec` (strip
  NULs + decode) is the identity on this representation.
* Python floats are modelled as rationals (`ℚ`), timestamps from
  `time()` as rationals as well.
* Exceptions are modelled with `Except`: `PAErr.dbusErr` stands for
  `dbus.exceptions.DBusException`, `PAErr.keyErr` for `KeyError` on a
  missing dictionary key, `PAErr.ifaceErr` for the
  `KeyError('Unknown interface ...')` raised by `_get_name`, and
  `PAErr.paUpdate` for the internal `PAUpdate` frame-abort signal.
* The remote side (`self.bus`) is an oracle `Remote`: property lists
  per object path plus the `PlaybackStreams` / `Sinks` topology
  snapshot.  Volume values are a separate oracle `vols : String → List ℕ`.
  The claims under study concern the registry logic itself, so the
  oracle is total where the code path under study assumes success.
-/

/-- The registry's value type: `(iface, handle)` where the handle is
identified by its D-Bus object path. -/
abbrev Entry := String × String

/-- Python-dict lookup on an association list (first binding wins;
with unique keys this is exactly `dict.__getitem__`). -/
def alookup {α : Type} : List (String × α) → String → Option α
  | [], _ => none
  | (k, v) :: ps, key => if k = key then some v else alookup ps key

/-- Python-dict assignment `d[k] = v`: overwrite in place if `k` is
present (keeping its position), else append at the end. -/
def dictSet {α : Type} : List (String × α) → String → α → List (String × α)
  | [], k, v => [(k, v)]
  | p :: ps, k, v => if p.1 = k then (k, v) :: ps else p :: dictSet ps k v

/-- Python-dict deletion / `pop`: drop the binding of `k`. -/
def dictDel {α : Type} : List (String × α) → String → List (String × α)
  | [], _ => []
  | p :: ps, k => if p.1 = k then ps else p :: dictDel ps k

/-- Errors of the embedded code; see the module comment for the Python
exception each constructor stands for. -/
inductive PAErr
  | dbusErr
  | keyErr
  | ifaceErr
  | paUpdate
  deriving DecidableEq, Repr

/-- The mutable state of a `PAMenu` instance: the dict contents
(`entries`), the cached maximum display-name length, the shared
`_unique_idx` counter (value the next `next(self._unique_idx)` call
returns), the `_volume_val_cache` (value tuple plus timestamp), the
`_mute_val_cache`, and the pending-event queue `updates`. -/
structure Menu where
  entries : List (String × Entry)
  maxKeyLen : ℕ
  uniqueIdx : ℕ
  volCache : List (String × (List ℚ × ℚ))
  muteCache : List (String × (Bool × ℚ))
  updates : List (String × String)
  deriving DecidableEq

/-- Program options used by the registry code (`optz`). -/
structure Ctx where
  useMediaName : Bool
  deriving DecidableEq

/-- The remote (PulseAudio over D-Bus) as seen by the registry:
property lists per object path, and the current topology snapshot
read by `refresh`. -/
structure Remote where
  props : String → Option (List (String × String))
  streams : List String
  sinks : List String

/-- `PAMenu._placeholder_names`. -/
def placeholderNames : List String := ["audio stream", "AudioStream"]

/-- `PAMenu._get_name_unique`: the template `'{} #{}'` applied to a
name and the next value of the `_unique_idx` counter. -/
def uniqueName (name : String) (idx : ℕ) : String :=
  name ++ " #" ++ toString idx

/-- The base-name part of `PAMenu._get_name` (before the parenthesized
extension): given the counter value and the interface, derive the name
from the property list, returning the new counter value.  Mirrors the
`Stream` / `Device` branches; any other interface raises
`KeyError('Unknown interface ...')`. -/
def getNameBase (ctx : Ctx) (idx : ℕ) (iface : String)
    (props : List (String × String)) : Except PAErr (String × ℕ) :=
  if iface = "Stream" then
    let viaMedia : Option String :=
      if ctx.useMediaName then
        match alookup props "media.name" with
        | some n => if n ∈ placeholderNames then none else some n
        | none => none
      else none
    match viaMedia with
    | some n => .ok (n, idx)
    | none =>
      match alookup props "application.name" with
      | some n => .ok (n, idx)
      | none =>
        match alookup props "media.name" with
        | some mn => .ok (uniqueName mn idx, idx + 1)
        | none => .error .keyErr
  else if iface = "Device" then
    match alookup props "alsa.id" with
    | some n => .ok (n, idx)
    | none =>
      match alookup props "device.api", alookup props "device.string" with
      | some a, some s => .ok (a ++ "." ++ s, idx)
      | _, _ =>
        match alookup props "device.description" with
        | some d => .ok (uniqueName d idx, idx + 1)
        | none => .error .keyErr
  else .error .ifaceErr

/-- The parenthesized extension of `PAMenu._get_name`:
`(user@host:id)` for streams, `(profile@driver)` for devices; `none`
(extension omitted) when any of its properties is missing. -/
def extSuffix (iface : String) (props : List (String × String)) :
    Option String :=
  if iface = "Stream" then
    match alookup props "application.process.user",
          alookup props "application.process.host",
          alookup props "application.process.id" with
    | some u, some h, some i => some ("(" ++ u ++ "@" ++ h ++ ":" ++ i ++ ")")
    | _, _, _ => none
  else
    match alookup props "device.profile.name",
          alookup props "alsa.driver_name" with
    | some p, some d => some ("(" ++ p ++ "@" ++ d ++ ")")
    | _, _ => none

/-- `'{} {}'.format(name, ext)` when the extension resolved, plain
`name` otherwise (the `except KeyError: pass` around the format). -/
def withExt (name : String) : Option String → String
  | some e => name ++ " " ++ e
  | none => name

/-- `PAMenu._get_name`: base name plus the parenthesized extension. -/
def getName (ctx : Ctx) (idx : ℕ) (iface : String)
    (props : List (String × String)) : Except PAErr (String × ℕ) :=
  match getNameBase ctx idx iface props with
  | .error e => .error e
  | .ok (name, idx1) => .ok (withExt name (extSuffix iface props), idx1)

/-- `PAMenu.add(path, iface)`: fetch the property list, derive a name;
in media-name mode, on a collision the existing entry is popped and
re-inserted under a fresh unique suffix, and a second fresh unique
suffix becomes the new entry's name (the source calls
`_get_name_unique` twice); finally store `(iface, handle)` and bump
`max_key_len`.  Returns the assigned name with the new state. -/
def addCore (ctx : Ctx) (rm : Remote) (m : Menu) (path iface : String) :
    Except PAErr (String × Menu) :=
  match rm.props path with
  | none => .error .dbusErr
  | some props =>
    match getName ctx m.uniqueIdx iface props with
    | .error e => .error e
    | .ok (name0, idx1) =>
      match ctx.useMediaName, alookup m.entries name0 with
      | true, some oldv =>
        let renamed := uniqueName name0 idx1
        let name := uniqueName name0 (idx1 + 1)
        let entries :=
          dictSet (dictSet (dictDel m.entries name0) renamed oldv)
            name (iface, path)
        .ok (name,
          { m with
            entries := entries
            uniqueIdx := idx1 + 2
            maxKeyLen := if name.length > m.maxKeyLen then name.length
                         else m.maxKeyLen })
      | _, _ =>
        let entries := dictSet m.entries name0 (iface, path)
        .ok (name0,
          { m with
            entries := entries
            uniqueIdx := idx1
            maxKeyLen := if name0.length > m.maxKeyLen then name0.length
                         else m.maxKeyLen })

/-- `PAMenu.remove(path)`: linear scan over `self.items()` (insertion
order) for the entry whose handle has the given object path; if none
matches, return unchanged; otherwise delete it and, when the deleted
name's length equals `max_key_len`, recompute it as the maximum name
length of the remaining entries (0 when empty). -/
def removeCore (m : Menu) (path : String) : Menu :=
  match m.entries.find? (fun e => e.2.2 = path) with
  | none => m
  | some e =>
    let entries := dictDel m.entries e.1
    { m with
      entries := entries
      maxKeyLen := if e.1.length = m.maxKeyLen then
          (entries.map (fun p => p.1.length)).foldr Nat.max 0
        else m.maxKeyLen }

/-- One step of `PAMenu.update`: dispatch one queued `(action, path)`
record through the action table.  Note the source maps `'^'`
(`NewSink`) to `add(path, iface='Sink')` — the string `'Sink'`, not
`'Device'`. -/
def updateStep (ctx : Ctx) (rm : Remote) (m : Menu)
    (ev : String × String) : Except PAErr Menu :=
  if ev.1 = "+" then (addCore ctx rm m ev.2 "Stream").map (fun r => r.2)
  else if ev.1 = "-" then .ok (removeCore m ev.2)
  else if ev.1 = "^" then (addCore ctx rm m ev.2 "Sink").map (fun r => r.2)
  else if ev.1 = "v" then .ok (removeCore m ev.2)
  else .error .keyErr

/-- Drain a list of pending events in FIFO order; an exception aborts
the drain (it propagates out of `update`). -/
def updateGo (ctx : Ctx) (rm : Remote) :
    List (String × String) → Menu → Except PAErr Menu
  | [], m => .ok m
  | ev :: evs, m =>
    match updateStep ctx rm m ev with
    | .error e => .error e
    | .ok m1 => updateGo ctx rm evs m1

/-- `PAMenu.update()`: pop and dispatch queued events until the queue
is empty. -/
def update (ctx : Ctx) (rm : Remote) (m : Menu) : Except PAErr Menu :=
  updateGo ctx rm m.updates { m with updates := [] }

/-- The `set(self.add(path, iface) for path in ...)` generator inside
`refresh`: add each path in order, collecting the returned names (the
Python `set` is only used for emptiness/membership of its difference,
for which the list is equivalent). -/
def addFold (ctx : Ctx) (rm : Remote) (iface : String) :
    List String → Menu → Except PAErr (List String × Menu)
  | [], m => .ok ([], m)
  | p :: ps, m =>
    match addCore ctx rm m p iface with
    | .error e => .error e
    | .ok (n, m1) =>
      match addFold ctx rm iface ps m1 with
      | .error e => .error e
      | .ok (ns, m2) => .ok (n :: ns, m2)

/-- `PAMenu.refresh(soft=True)`: clear both value caches, reset
`max_key_len`, re-`add` every remote stream and sink path, then run
`for name in stream_names.difference(self): del self[name]`.  As
written, every name in that set difference is by definition absent
from the dict, so the loop either does nothing (difference empty) or
raises `KeyError` on its first iteration — modelled as `.keyErr`. -/
def refreshSoft (ctx : Ctx) (rm : Remote) (m : Menu) : Except PAErr Menu :=
  match addFold ctx rm "Stream" rm.streams
      { m with volCache := [], muteCache := [], maxKeyLen := 0 } with
  | .error e => .error e
  | .ok (streamNames, m1) =>
    match addFold ctx rm "Device" rm.sinks m1 with
    | .error e => .error e
    | .ok (_, m2) =>
      if (streamNames.filter (fun n => (alookup m2.entries n).isNone)).isEmpty
      then .ok m2
      else .error .keyErr

/-- `PAMenu.refresh(soft=False)`: additionally `self.clear()` and
reconnect the bus (the reconnect and the `SIGUSR1` to the child are
outside the registry state), then rebuild from the snapshot; the
stream-names difference loop is in the `soft` branch only. -/
def refreshHard (ctx : Ctx) (rm : Remote) (m : Menu) : Except PAErr Menu :=
  match addFold ctx rm "Stream" rm.streams
      { m with entries := [], volCache := [], muteCache := [],
               maxKeyLen := 0 } with
  | .error e => .error e
  | .ok (_, m1) =>
    match addFold ctx rm "Device" rm.sinks m1 with
    | .error e => .error e
    | .ok (_, m2) => .ok m2

/-- Channel normalization in `get_volume`:
`min(op.truediv(val, optz.max_level), 1.0)`. -/
def normChan (maxLevel : ℚ) (v : ℕ) : ℚ :=
  min ((v : ℚ) / maxLevel) 1

/-- `PAMenu.get_volume(item, raw=True)` with the remote volume oracle
`vols` (per object path) and the current `time()` value `now`.
Returns the per-channel tuple, the new state, and the number of remote
fetches performed (0 or 1).  A missing registry entry surfaces as the
`PAUpdate` signal, as in the source. -/
def getVolumeT (maxLevel cacheTime : ℚ) (vols : String → List ℕ)
    (now : ℚ) (m : Menu) (item : String) :
    Except PAErr (List ℚ × Menu × ℕ) :=
  match alookup m.volCache item with
  | some (v, ts) =>
    if ts < now - cacheTime then
      match alookup m.entries item with
      | none => .error .paUpdate
      | some (_, path) =>
        let val := (vols path).map (normChan maxLevel)
        .ok (val, { m with volCache := dictSet m.volCache item (val, now) }, 1)
    else .ok (v, m, 0)
  | none =>
    match alookup m.entries item with
    | none => .error .paUpdate
    | some (_, path) =>
      let val := (vols path).map (normChan maxLevel)
      .ok (val, { m with volCache := dictSet m.volCache item (val, now) }, 1)

/-- `PAMenu.get_volume(item, raw=False)`: the arithmetic mean across
channels of the tuple `get_volume(item, raw=True)` yields. -/
def getVolumeMean (maxLevel cacheTime : ℚ) (vols : String → List ℕ)
    (now : ℚ) (m : Menu) (item : String) :
    Except PAErr (ℚ × Menu × ℕ) :=
  (getVolumeT maxLevel cacheTime vols now m item).map
    (fun r => (r.1.sum / (r.1.length : ℚ), r.2))

/-- Python 3 `round` on an exact rational: round half to even. -/
def pyRound (q : ℚ) : ℤ :=
  if q - q.floor < 1 / 2 then q.floor
  else if (1 / 2 : ℚ) < q - q.floor then q.floor + 1
  else if 2 ∣ q.floor then q.floor else q.floor + 1

/-- `PAMenu.set_volume(item, val)`: clamp, replicate over the channel
count obtained from `get_volume(item, raw=True)`, convert each channel
to `dbus.UInt32(round(val * optz.max_level))`, issue the remote `Set`
(modelled by returning the integer payload), and optimistically update
the volume cache.  A vanished entry raises `PAUpdate`. -/
def setVolume (maxLevel cacheTime : ℚ) (vols : String → List ℕ)
    (now : ℚ) (m : Menu) (item : String) (x : ℚ) :
    Except PAErr (List ℤ × List ℚ × Menu) :=
  match getVolumeT maxLevel cacheTime vols now m item with
  | .error e => .error e
  | .ok (cur, m1, _) =>
    let c := max 0 (min 1 x)
    let stored := List.replicate cur.length c
    let dbusVals := stored.map (fun v => pyRound (v * maxLevel))
    match alookup m1.entries item with
    | none => .error .paUpdate
    | some _ =>
      .ok (dbusVals, stored,
           { m1 with volCache := dictSet m1.volCache item (stored, now) })

/-- Outcome of one call into D-Bus: success or `DBusException`. -/
inductive DbusOutcome
  | ok
  | err
  deriving DecidableEq, Repr

/-- Behaviour of the environment during one `_dbus_failsafe`-wrapped
call: outcome of the first attempt of the wrapped method, whether the
`self.refresh()` recovery call itself raises `DBusException`, and the
outcome of the retry attempt. -/
structure FailsafeEnv where
  first : DbusOutcome
  refreshFails : Bool
  second : DbusOutcome
  deriving DecidableEq, Repr

/-- Observable trace of one `_dbus_failsafe`-wrapped call: how many
times the wrapped method ran, the `soft` argument of each `refresh`
call the wrapper made, whether `fail_hook` ran, the returned value
(`none` models Python's implicit `None` on the swallowed-failure
path), and whether an exception escaped the wrapper. -/
structure FailsafeTrace where
  methodAttempts : ℕ
  refreshSoftFlags : List Bool
  hookInvoked : Bool
  result : Option Unit
  escapes : Bool
  deriving DecidableEq, Repr

/-- The `soft` argument of the recovery call `self.refresh()` inside
`_dbus_failsafe`: no argument is passed, so the default of
`def refresh(self, soft=True)` applies. -/
def refreshDefaultSoft : Bool := true

/-- `PAMenu._dbus_failsafe`: try the method; on `DBusException`, call
`self.refresh()` and retry once; if the refresh or the retry raises
`DBusException`, call `self.fail_hook()` and return `None`. -/
def dbusFailsafe (env : FailsafeEnv) : FailsafeTrace :=
  match env.first with
  | .ok => ⟨1, [], false, some (), false⟩
  | .err =>
    if env.refreshFails then
      ⟨1, [refreshDefaultSoft], true, none, false⟩
    else
      match env.second with
      | .ok => ⟨2, [refreshDefaultSoft], false, some (), false⟩
      | .err => ⟨2, [refreshDefaultSoft], true, none, false⟩

/-- Number of hard refreshes (`soft=False`) the wrapper requested. -/
def hardRefreshes (t : FailsafeTrace) : ℕ := t.refreshSoftFlags.count false

/-- Number of soft refreshes (`soft=True`) the wrapper requested. -/
def softRefreshes (t : FailsafeTrace) : ℕ := t.refreshSoftFlags.count true

/-- `PAMenu._sort_key`: `(iface, name)` for an item `(name, (iface, obj))`. -/
def sortKey (p : String × Entry) : String × String := (p.2.1, p.1)

/-- Python string comparison on characters: by Unicode code point. -/
def charLtb (c d : Char) : Bool := c.toNat < d.toNat

/-- Python string comparison, on the underlying character lists:
lexicographic by code point (a proper prefix is smaller). -/
def strLtList : List Char → List Char → Bool
  | [], [] => false
  | [], _ :: _ => true
  | _ :: _, [] => false
  | c :: cs, d :: ds => charLtb c d || (c = d && strLtList cs ds)

/-- Python `str.__lt__`. -/
def strLtb (a b : String) : Bool := strLtList a.data b.data

/-- Python `str.__le__`: strictly smaller or equal. -/
def strLeb (a b : String) : Bool := strLtb a b || a == b

/-- Lexicographic comparison of Python `(str, str)` sort keys. -/
def keyLEb (a b : String × String) : Bool :=
  strLtb a.1 b.1 || (a.1 == b.1 && strLeb a.2 b.2)

/-- Item comparison used by `__iter__`: compare `_sort_key` values. -/
def entryLEb (p q : String × Entry) : Bool := keyLEb (sortKey p) (sortKey q)

/-- Insertion into a list sorted by `entryLEb`. -/
def insertSorted (x : String × Entry) :
    List (String × Entry) → List (String × Entry)
  | [] => [x]
  | y :: ys => if entryLEb x y then x :: y :: ys else y :: insertSorted x ys

/-- `sorted(self.items(), key=self._sort_key)`, as an insertion sort:
with pairwise-distinct names the sort keys are pairwise distinct, so
every correct sort produces the same list as Python's stable sort. -/
def sortEntries (l : List (String × Entry)) : List (String × Entry) :=
  l.foldr insertSorted []

/-- `PAMenu.__iter__`: display names of the items sorted by
`(iface, name)`. -/
def menuIter (m : Menu) : List String :=
  (sortEntries m.entries).map Prod.fst

/-- `PAMenu.__reversed__`: `sorted(..., reverse=True)`; with
pairwise-distinct sort keys this is exactly the reverse of the
ascending order. -/
def menuIterRev (m : Menu) : List String :=
  (menuIter m).reverse

/-- `PAMenu.next_key`:
`(list(it.dropwhile(lambda k: k != item, self)) + list(self) * 2)[1]`,
with `IndexError` mapped to the empty string. -/
def nextKey (m : Menu) (item : String) : String :=
  ((menuIter m).dropWhile (fun k => k != item)
    ++ menuIter m ++ menuIter m).getD 1 ""

/-- `PAMenu.prev_key`: same as `next_key` but over
`reversed(self)`. -/
def prevKey (m : Menu) (item : String) : String :=
  ((menuIterRev m).dropWhile (fun k => k != item)
    ++ menuIterRev m ++ menuIterRev m).getD 1 ""

/-! ### Association-list lemmas (Python dict semantics) -/

theorem alookup_eq_none_of_not_mem {α : Type} {d : List (String × α)}
    {k : String} (h : k ∉ d.map Prod.fst) : alookup d k = none := by
  induction d with
  | nil => rfl
  | cons p ps ih =>
    simp only [List.map_cons, List.mem_cons, not_or] at h
    have hne : ¬ p.1 = k := fun e => h.1 e.symm
    simp [alookup, hne, ih h.2]

theorem alookup_isSome_iff_mem {α : Type} (d : List (String × α))
    (k : String) : (alookup d k).isSome ↔ k ∈ d.map Prod.fst := by
  induction d with
  | nil => simp [alookup]
  | cons p ps ih =>
    by_cases hp : p.1 = k
    · simp [alookup, hp]
    · have hne : ¬ k = p.1 := fun e => hp e.symm
      simp only [alookup, if_neg hp, List.map_cons, List.mem_cons]
      rw [ih]
      exact ⟨Or.inr, fun h => h.elim (fun e => absurd e hne) id⟩

theorem alookup_dictSet {α : Type} (d : List (String × α)) (k k' : String)
    (v : α) :
    alookup (dictSet d k v) k' = if k = k' then some v else alookup d k' := by
  induction d with
  | nil => simp [dictSet, alookup]
  | cons p ps ih =>
    by_cases hp : p.1 = k
    · by_cases hk : k = k'
      · simp [dictSet, alookup, hp, hk]
      · have hpk : ¬ p.1 = k' := fun e => hk (hp.symm.trans e)
        simp [dictSet, alookup, hp, hk, hpk]
    · by_cases h2 : p.1 = k'
      · have hk : ¬ k = k' := fun e => hp (h2.trans e.symm)
        simp only [dictSet, if_neg hp, alookup]
        rw [if_pos h2, if_neg hk, if_pos h2]
      · simp only [dictSet, if_neg hp, alookup]
        rw [if_neg h2, ih]
        by_cases hk : k = k' <;> simp [hk, h2]

theorem alookup_dictDel_ne {α : Type} (d : List (String × α)) (k k' : String)
    (h : k ≠ k') :
    alookup (dictDel d k) k' = alookup d k' := by
  induction d with
  | nil => simp [dictDel]
  | cons p ps ih =>
    by_cases hp : p.1 = k
    · have : ¬ p.1 = k' := fun e => h (hp.symm.trans e)
      simp [dictDel, alookup, hp, this, h]
    · have : ¬ k' = k := fun e => h e.symm
      by_cases h2 : p.1 = k' <;> simp [dictDel, alookup, hp, h2, ih, this]

theorem not_mem_keys_dictDel_self {α : Type} (d : List (String × α))
    (k : String) (h : (d.map Prod.fst).Nodup) :
    k ∉ (dictDel d k).map Prod.fst := by
  induction d with
  | nil => simp [dictDel]
  | cons p ps ih =>
    simp only [List.map_cons, List.nodup_cons] at h
    by_cases hp : p.1 = k
    · rw [show dictDel (p :: ps) k = ps from by simp [dictDel, hp]]
      exact hp ▸ h.1
    · simp only [dictDel, if_neg hp, List.map_cons, List.mem_cons, not_or]
      exact ⟨fun e => hp e.symm, ih h.2⟩

theorem alookup_dictDel_self {α : Type} (d : List (String × α)) (k : String)
    (h : (d.map Prod.fst).Nodup) :
    alookup (dictDel d k) k = none :=
  alookup_eq_none_of_not_mem (not_mem_keys_dictDel_self d k h)

theorem mem_keys_dictSet {α : Type} (d : List (String × α)) (k a : String)
    (v : α) :
    a ∈ (dictSet d k v).map Prod.fst ↔ a ∈ d.map Prod.fst ∨ a = k := by
  induction d with
  | nil => simp [dictSet]
  | cons p ps ih =>
    by_cases hp : p.1 = k
    · subst hp
      have hd : dictSet (p :: ps) p.1 v = (p.1, v) :: ps := by simp [dictSet]
      rw [hd]
      simp only [List.map_cons, List.mem_cons]
      show (a = p.1 ∨ a ∈ ps.map Prod.fst) ↔ _
      tauto
    · simp only [dictSet, if_neg hp, List.map_cons, List.mem_cons, ih]
      tauto

theorem nodup_keys_dictSet {α : Type} (d : List (String × α)) (k : String)
    (v : α) (h : (d.map Prod.fst).Nodup) :
    ((dictSet d k v).map Prod.fst).Nodup := by
  induction d with
  | nil => simp [dictSet]
  | cons p ps ih =>
    simp only [List.map_cons, List.nodup_cons] at h
    by_cases hp : p.1 = k
    · subst hp
      have hd : dictSet (p :: ps) p.1 v = (p.1, v) :: ps := by simp [dictSet]
      rw [hd, List.map_cons]
      refine List.nodup_cons.2 ⟨?_, h.2⟩
      simpa using h.1
    · simp only [dictSet, if_neg hp, List.map_cons]
      refine List.nodup_cons.2 ⟨?_, ih h.2⟩
      intro hm
      rcases (mem_keys_dictSet ps k p.1 v).1 hm with h1 | h2
      · exact h.1 h1
      · exact hp h2

theorem keys_dictDel_sublist {α : Type} (d : List (String × α)) (k : String) :
    ((dictDel d k).map Prod.fst).Sublist (d.map Prod.fst) := by
  induction d with
  | nil => simp [dictDel]
  | cons p ps ih =>
    by_cases hp : p.1 = k
    · simp only [dictDel, if_pos hp, List.map_cons]
      exact List.sublist_cons_self _ _
    · simpa [dictDel, hp] using ih.cons₂ p.1

theorem nodup_keys_dictDel {α : Type} (d : List (String × α)) (k : String)
    (h : (d.map Prod.fst).Nodup) :
    ((dictDel d k).map Prod.fst).Nodup :=
  (keys_dictDel_sublist d k).nodup h

/-! ### Helper lemmas about unique-suffix names -/

theorem self_ne_uniqueName (n : String) (i : ℕ) : n ≠ uniqueName n i := by
  intro h
  have hlen := congrArg String.length h
  rw [uniqueName, String.length_append, String.length_append] at hlen
  have h2 : (" #" : String).length = 2 := rfl
  rw [h2] at hlen
  omega

/-! ### Concrete fixtures used by witnesses and counterexamples -/

/-- A registry holding one stream entity whose remote object has
disappeared from the snapshot, plus a snapshot with one new stream. -/
def rmFix1 : Remote :=
  { props := fun p => if p = "/new" then some [("application.name", "NewApp")] else none
    streams := ["/new"], sinks := [] }

def mFix1 : Menu :=
  { entries := [("OldApp", ("Stream", "/old"))], maxKeyLen := 6, uniqueIdx := 0,
    volCache := [], muteCache := [], updates := [] }

/-- A snapshot with a single synthetic stream: no `application.name`,
so naming falls back to `media.name` plus a unique counter suffix. -/
def rmFix5 : Remote :=
  { props := fun p => if p = "/p" then some [("media.name", "radio")] else none
    streams := ["/p"], sinks := [] }

def mFix5 : Menu :=
  { entries := [], maxKeyLen := 0, uniqueIdx := 0, volCache := [], muteCache := [],
    updates := [] }

/-- A queued `NewSink` (`'^'`, i.e. DeviceAdded) pending event for a
sink whose property list is available and well-formed. -/
def rmFix7 : Remote :=
  { props := fun p => if p = "/s0" then some [("alsa.id", "HDA Intel")] else none
    streams := [], sinks := [] }

def mFix7 : Menu :=
  { entries := [], maxKeyLen := 0, uniqueIdx := 0, volCache := [], muteCache := [],
    updates := [("^", "/s0")] }

/-- Media-name mode collision: the registry already holds "song" and a
new stream with `media.name = "song"` arrives. -/
def rmFix8 : Remote :=
  { props := fun p => if p = "/p2" then some [("media.name", "song")] else none
    streams := [], sinks := [] }

def mFix8 : Menu :=
  { entries := [("song", ("Stream", "/p1"))], maxKeyLen := 4, uniqueIdx := 0,
    volCache := [], muteCache := [], updates := [] }

/-! ### C10 -/

/-- C10: for every path matched by no registered entity's handle,
`remove(path)` returns without raising and leaves both the registry
contents and the cached `max_key_len` (the whole state) unchanged. -/
theorem remove_unmatched_path_noop (m : Menu) (path : String)
    (h : ∀ e ∈ m.entries, e.2.2 ≠ path) : removeCore m path = m := by
  have hf : m.entries.find? (fun e => e.2.2 = path) = none := by
    rw [List.find?_eq_none]
    intro e he
    simpa using h e he
  simp [removeCore, hf]

theorem remove_unmatched_path_noop_witness :
    (∀ e ∈ mFix1.entries, e.2.2 ≠ "/nope") ∧ removeCore mFix1 "/nope" = mFix1 :=
  ⟨by decide, remove_unmatched_path_noop mFix1 "/nope" (by decide)⟩

/-! ### C7 -/

/-- C7 (code bug): draining a queued DeviceAdded (`'^'`) event does
not insert a Device entity — `update` passes `iface='Sink'` to `add`,
and `_get_name` only accepts `'Stream'`/`'Device'`, so the drain dies
with `KeyError('Unknown interface ...')` (in a live session the remote
`Get` on the nonexistent `...Core1.Sink` interface fails first and the
failsafe escalates to a restart).  The same `add` with the correct
`'Device'` interface string — as `refresh` itself uses — would have
inserted the entity. -/
theorem update_device_added_fails :
    update ⟨false⟩ rmFix7 mFix7 = .error .ifaceErr ∧
    (addCore ⟨false⟩ rmFix7 mFix7 "/s0" "Device").toOption.map
        (fun r => (r.1, r.2.entries)) =
      some ("HDA Intel", [("HDA Intel", ("Device", "/s0"))]) :=
  ⟨rfl, by decide⟩

/-! ### C1 -/

/-- C1 (code bug): after `refresh(soft=True)`, a locally registered
stream entity whose remote path is absent from the snapshot is still
registered, so the registry's stream membership does not equal the
snapshot.  The removal loop iterates over
`stream_names.difference(self)` — names just added and hence present
in `self` — so its difference is empty here and nothing is removed
(and whenever that difference is nonempty, `del self[name]` on an
absent key would raise `KeyError`, modelled by the `.keyErr` branch of
`refreshSoft`). -/
theorem refresh_soft_keeps_stale_stream :
    (refreshSoft ⟨false⟩ rmFix1 mFix1).toOption.map
        (fun m2 => m2.entries.map Prod.fst) = some ["OldApp", "NewApp"] ∧
    "/old" ∉ rmFix1.streams := by
  constructor <;> decide

/-! ### C5 -/

/-- C5 counterexample: with a synthetic stream (no `application.name`)
the derived display name consumes the unique counter, so two
consecutive `refresh(soft=True)` calls against an unchanged remote
topology yield different entity sets: `{"radio #0"}` after the first,
`{"radio #0", "radio #1"}` after the second. -/
theorem refresh_soft_not_idempotent_counterexample :
    (refreshSoft ⟨false⟩ rmFix5 mFix5).toOption.map
        (fun m2 => m2.entries.map Prod.fst) = some ["radio #0"] ∧
    ((refreshSoft ⟨false⟩ rmFix5 mFix5).bind
        (refreshSoft ⟨false⟩ rmFix5)).toOption.map
        (fun m2 => m2.entries.map Prod.fst) = some ["radio #0", "radio #1"] := by
  constructor <;> decide

/-! ### C8 -/

/-- C8 counterexample: in media-name mode, when the derived name
"song" collides with the existing entry, the *new* entity is inserted
under `"song #1"` — a fresh unique-suffix name, not the contested
unsuffixed name "song"; "song" is absent from the registry after the
call. -/
theorem add_collision_new_name_suffixed_counterexample :
    alookup mFix8.entries "song" = some ("Stream", "/p1") ∧
    (addCore ⟨true⟩ rmFix8 mFix8 "/p2" "Stream").toOption.map
        (fun r => (r.1, alookup r.2.entries "song",
                   alookup r.2.entries "song #0",
                   alookup r.2.entries "song #1")) =
      some ("song #1", none, some ("Stream", "/p1"),
            some ("Stream", "/p2")) := by
  constructor <;> decide

/-- C8 (amended): in media-name display mode, when `add` derives a
display name `n` that collides with an existing registry entry, the
existing entry is renamed to `n #i` (`i` the current unique counter)
before insertion, and the new entity is inserted under the *next*
unique-suffix name `n #(i+1)` — not under the contested unsuffixed
name, which is absent from the registry afterwards; both entities
carry unique names (the key set stays duplicate-free). -/
theorem add_collision_renames_both (rm : Remote) (m : Menu) (path n : String)
    (hprops : rm.props path = some [("media.name", n)])
    (hph : n ∉ placeholderNames)
    (old : Entry) (hold : alookup m.entries n = some old)
    (hnd : (m.entries.map Prod.fst).Nodup)
    (hne : uniqueName n m.uniqueIdx ≠ uniqueName n (m.uniqueIdx + 1)) :
    ∃ m2, addCore ⟨true⟩ rm m path "Stream" =
        .ok (uniqueName n (m.uniqueIdx + 1), m2) ∧
      alookup m2.entries n = none ∧
      alookup m2.entries (uniqueName n m.uniqueIdx) = some old ∧
      alookup m2.entries (uniqueName n (m.uniqueIdx + 1)) =
        some ("Stream", path) ∧
      (m2.entries.map Prod.fst).Nodup := by
  have hname : getName ⟨true⟩ m.uniqueIdx "Stream" [("media.name", n)] =
      .ok (n, m.uniqueIdx) := by
    simp [getName, getNameBase, extSuffix, withExt, alookup, hph]
  refine ⟨{ m with
      entries := dictSet
        (dictSet (dictDel m.entries n) (uniqueName n m.uniqueIdx) old)
        (uniqueName n (m.uniqueIdx + 1)) ("Stream", path)
      uniqueIdx := m.uniqueIdx + 2
      maxKeyLen := if (uniqueName n (m.uniqueIdx + 1)).length > m.maxKeyLen
        then (uniqueName n (m.uniqueIdx + 1)).length else m.maxKeyLen },
    ?_, ?_, ?_, ?_, ?_⟩
  · simp only [addCore, hprops, hname, hold]
  · rw [alookup_dictSet, alookup_dictSet,
        if_neg (fun e => self_ne_uniqueName n (m.uniqueIdx + 1) e.symm),
        if_neg (fun e => self_ne_uniqueName n m.uniqueIdx e.symm)]
    exact alookup_dictDel_self m.entries n hnd
  · rw [alookup_dictSet, if_neg (fun e => hne e.symm), alookup_dictSet,
        if_pos rfl]
  · rw [alookup_dictSet, if_pos rfl]
  · exact nodup_keys_dictSet _ _ _
      (nodup_keys_dictSet _ _ _ (nodup_keys_dictDel _ _ hnd))

theorem add_collision_renames_both_witness :
    ∃ m2, addCore ⟨true⟩ rmFix8 mFix8 "/p2" "Stream" =
        .ok (uniqueName "song" (mFix8.uniqueIdx + 1), m2) ∧
      alookup m2.entries "song" = none ∧
      alookup m2.entries (uniqueName "song" mFix8.uniqueIdx) =
        some ("Stream", "/p1") ∧
      alookup m2.entries (uniqueName "song" (mFix8.uniqueIdx + 1)) =
        some ("Stream", "/p2") ∧
      (m2.entries.map Prod.fst).Nodup :=
  add_collision_renames_both rmFix8 mFix8 "/p2" "song" rfl (by decide)
    ("Stream", "/p1") (by decide) (by decide) (by decide)

/-- Registry with one registered device and a cached volume fetched
at time 9. -/
def volsFix : String → List ℕ := fun _ => [32768, 32768]

def mVolFix : Menu :=
  { entries := [("Speakers", ("Device", "/d"))], maxKeyLen := 8, uniqueIdx := 0,
    volCache := [("Speakers", ([1/2], 9))], muteCache := [], updates := [] }

/-! ### Volume-path helper lemmas -/

/-- `self._volume_val_cache[item] = val, ts`. -/
def cacheUpd (m : Menu) (item : String) (v : List ℚ) (ts : ℚ) : Menu :=
  { m with volCache := dictSet m.volCache item (v, ts) }

theorem getVolumeT_entries_eq {mL cT : ℚ} {vols : String → List ℕ}
    {now : ℚ} {m : Menu} {item : String} {chs : List ℚ} {m1 : Menu} {k : ℕ}
    (h : getVolumeT mL cT vols now m item = .ok (chs, m1, k)) :
    m1.entries = m.entries := by
  unfold getVolumeT at h
  split at h
  · split at h
    · split at h
      · exact absurd h (by simp)
      · simp only [Except.ok.injEq, Prod.mk.injEq] at h
        rw [← h.2.1]
    · simp only [Except.ok.injEq, Prod.mk.injEq] at h
      rw [← h.2.1]
  · split at h
    · exact absurd h (by simp)
    · simp only [Except.ok.injEq, Prod.mk.injEq] at h
      rw [← h.2.1]

/-! ### Concrete rational facts for witnesses -/

theorem ratFactFresh : ¬ ((9 : ℚ) < 10 - 2) := by norm_num

theorem ratFactExpired : ((9 : ℚ) < 12 - 2) := by norm_num

/-! ### C4 -/

/-- C4: a `getVolume` call within the TTL of a prior fetch returns the
cached per-channel value (its mean when `raw=False`) with no remote
fetch and no state change; a call after expiry (or with no cache
entry) performs exactly one remote fetch, normalizes each channel to
`min(raw/maxLevel, 1.0)`, re-caches the tuple with the current
timestamp, and returns the tuple (`raw=True`) or its arithmetic mean
(`raw=False`). -/
theorem get_volume_cache_ttl (mL cT : ℚ) (vols : String → List ℕ)
    (now : ℚ) (m : Menu) (item : String) :
    (∀ v ts, alookup m.volCache item = some (v, ts) → ¬ ts < now - cT →
       getVolumeT mL cT vols now m item = .ok (v, m, 0) ∧
       getVolumeMean mL cT vols now m item =
         .ok (v.sum / (v.length : ℚ), m, 0)) ∧
    (∀ kind path, alookup m.entries item = some (kind, path) →
       (alookup m.volCache item = none ∨
        ∃ v ts, alookup m.volCache item = some (v, ts) ∧ ts < now - cT) →
       getVolumeT mL cT vols now m item =
         .ok ((vols path).map (normChan mL),
              cacheUpd m item ((vols path).map (normChan mL)) now, 1) ∧
       getVolumeMean mL cT vols now m item =
         .ok (((vols path).map (normChan mL)).sum /
                ((((vols path).map (normChan mL)).length : ℚ)),
              cacheUpd m item ((vols path).map (normChan mL)) now, 1)) := by
  constructor
  · intro v ts hc hts
    have h1 : getVolumeT mL cT vols now m item = .ok (v, m, 0) := by
      unfold getVolumeT
      rw [hc]
      simp only [if_neg hts]
    exact ⟨h1, by simp [getVolumeMean, h1, Except.map]⟩
  · intro kind path he hcache
    have h1 : getVolumeT mL cT vols now m item =
        .ok ((vols path).map (normChan mL),
             cacheUpd m item ((vols path).map (normChan mL)) now, 1) := by
      unfold getVolumeT cacheUpd
      rcases hcache with hnone | ⟨v, ts, hsome, hts⟩
      · rw [hnone, he]
      · rw [hsome]
        simp only [if_pos hts]
        rw [he]
    exact ⟨h1, by simp [getVolumeMean, h1, Except.map]⟩

theorem get_volume_cache_ttl_witness :
    (getVolumeT 65536 2 volsFix 10 mVolFix "Speakers" =
       .ok ([1/2], mVolFix, 0)) ∧
    (getVolumeT 65536 2 volsFix 12 mVolFix "Speakers" =
       .ok ((volsFix "/d").map (normChan 65536),
            cacheUpd mVolFix "Speakers" ((volsFix "/d").map (normChan 65536)) 12,
            1)) :=
  ⟨((get_volume_cache_ttl 65536 2 volsFix 10 mVolFix "Speakers").1
      [1/2] 9 rfl ratFactFresh).1,
   ((get_volume_cache_ttl 65536 2 volsFix 12 mVolFix "Speakers").2
      "Device" "/d" rfl (Or.inr ⟨[1/2], 9, rfl, ratFactExpired⟩)).1⟩

/-! ### C3 -/

/-- C3: for a registered name and any requested level `x`, `setVolume`
stores `max(0, min(1, x))` identically on every channel (one copy per
channel of the current tuple), issues the remote mutation with the
integer `round(clamped * maxLevel)` on every channel, and immediately
re-caches the clamped per-channel tuple with the current timestamp. -/
theorem set_volume_clamps_uniform (mL cT : ℚ) (vols : String → List ℕ)
    (now : ℚ) (m : Menu) (item : String) (x : ℚ)
    (hreg : (alookup m.entries item).isSome) :
    ∀ chs m1 k, getVolumeT mL cT vols now m item = .ok (chs, m1, k) →
      setVolume mL cT vols now m item x =
        .ok (List.replicate chs.length (pyRound (max 0 (min 1 x) * mL)),
             List.replicate chs.length (max 0 (min 1 x)),
             cacheUpd m1 item (List.replicate chs.length (max 0 (min 1 x))) now) := by
  intro chs m1 k hgv
  have hent : m1.entries = m.entries := getVolumeT_entries_eq hgv
  obtain ⟨e, he⟩ := Option.isSome_iff_exists.1 hreg
  unfold setVolume
  rw [hgv]
  dsimp only
  rw [hent, he]
  simp [cacheUpd, List.map_replicate]
  exact hent.symm

theorem set_volume_clamps_uniform_witness :
    setVolume 65536 2 volsFix 10 mVolFix "Speakers" (1/2) =
      .ok (List.replicate 1 (pyRound (max 0 (min 1 (1/2 : ℚ)) * 65536)),
           List.replicate 1 (max 0 (min 1 (1/2 : ℚ))),
           cacheUpd mVolFix "Speakers"
             (List.replicate 1 (max 0 (min 1 (1/2 : ℚ)))) 10) :=
  set_volume_clamps_uniform 65536 2 volsFix 10 mVolFix "Speakers" (1/2)
    (by decide) [1/2] mVolFix 0
    (by simp [getVolumeT, mVolFix, alookup, ratFactFresh])

/-! ### C6 -/

/-- C6 counterexample: when the first attempt inside `_dbus_failsafe`
fails with a `DBusException`, the wrapper performs zero hard refreshes
— the single recovery refresh it issues is `self.refresh()` with the
default `soft=True`. -/
theorem failsafe_no_hard_refresh_counterexample :
    (⟨.err, false, .ok⟩ : FailsafeEnv).first = .err ∧
    hardRefreshes (dbusFailsafe ⟨.err, false, .ok⟩) = 0 ∧
    (dbusFailsafe ⟨.err, false, .ok⟩).refreshSoftFlags = [true] := by
  decide

/-- C6 (amended): on a first-attempt remote-call failure the wrapper
performs exactly one *soft* refresh (`self.refresh()` with the default
`soft=True`; escalation to a hard refresh can only happen inside
`refresh` itself) and retries the original call exactly once (unless
the refresh itself raises, in which case the retry is skipped); if the
refresh or the retry fails, the failure hook is invoked and the call
returns `None`; no exception escapes the wrapper in any of these
cases. -/
theorem failsafe_soft_refresh_retry (env : FailsafeEnv)
    (h : env.first = .err) :
    softRefreshes (dbusFailsafe env) = 1 ∧
    hardRefreshes (dbusFailsafe env) = 0 ∧
    (env.refreshFails = false → (dbusFailsafe env).methodAttempts = 2) ∧
    (env.refreshFails = true → (dbusFailsafe env).methodAttempts = 1) ∧
    ((env.refreshFails = true ∨ env.second = .err) →
       (dbusFailsafe env).hookInvoked = true ∧
       (dbusFailsafe env).result = none) ∧
    (env.refreshFails = false → env.second = .ok →
       (dbusFailsafe env).hookInvoked = false ∧
       (dbusFailsafe env).result = some ()) ∧
    (dbusFailsafe env).escapes = false := by
  obtain ⟨f, rf, sec⟩ := env
  cases h
  cases rf <;> cases sec <;>
    simp [dbusFailsafe, softRefreshes, hardRefreshes, refreshDefaultSoft]

theorem failsafe_soft_refresh_retry_witness :
    softRefreshes (dbusFailsafe ⟨.err, false, .err⟩) = 1 ∧
    hardRefreshes (dbusFailsafe ⟨.err, false, .err⟩) = 0 ∧
    ((⟨.err, false, .err⟩ : FailsafeEnv).refreshFails = false →
       (dbusFailsafe ⟨.err, false, .err⟩).methodAttempts = 2) ∧
    ((⟨.err, false, .err⟩ : FailsafeEnv).refreshFails = true →
       (dbusFailsafe ⟨.err, false, .err⟩).methodAttempts = 1) ∧
    (((⟨.err, false, .err⟩ : FailsafeEnv).refreshFails = true ∨
        (⟨.err, false, .err⟩ : FailsafeEnv).second = .err) →
       (dbusFailsafe ⟨.err, false, .err⟩).hookInvoked = true ∧
       (dbusFailsafe ⟨.err, false, .err⟩).result = none) ∧
    ((⟨.err, false, .err⟩ : FailsafeEnv).refreshFails = false →
       (⟨.err, false, .err⟩ : FailsafeEnv).second = .ok →
       (dbusFailsafe ⟨.err, false, .err⟩).hookInvoked = false ∧
       (dbusFailsafe ⟨.err, false, .err⟩).result = some ()) ∧
    (dbusFailsafe ⟨.err, false, .err⟩).escapes = false :=
  failsafe_soft_refresh_retry ⟨.err, false, .err⟩ rfl

/-! ### Order properties of the Python string comparison -/

theorem char_eq_of_toNat_eq {a b : Char} (h : a.toNat = b.toNat) : a = b := by
  have hv : a.val = b.val := UInt32.ext h
  cases a
  cases b
  cases hv
  rfl

theorem charLtb_trans {a b c : Char} (h1 : charLtb a b = true)
    (h2 : charLtb b c = true) : charLtb a c = true := by
  simp only [charLtb, decide_eq_true_eq] at *
  omega

theorem charLtb_eq_of_not {a b : Char} (h1 : charLtb a b = false)
    (h2 : charLtb b a = false) : a = b := by
  simp only [charLtb, decide_eq_false_iff_not, Nat.not_lt] at h1 h2
  exact char_eq_of_toNat_eq (Nat.le_antisymm h2 h1)

theorem strLtList_trans : ∀ {a b c : List Char},
    strLtList a b = true → strLtList b c = true → strLtList a c = true
  | [], [], _, h1, _ => by simp [strLtList] at h1
  | [], _ :: _, [], _, h2 => by simp [strLtList] at h2
  | [], _ :: _, _ :: _, _, _ => by simp [strLtList]
  | _ :: _, [], _, h1, _ => by simp [strLtList] at h1
  | _ :: _, _ :: _, [], _, h2 => by simp [strLtList] at h2
  | x :: xs, y :: ys, z :: zs, h1, h2 => by
    simp only [strLtList, Bool.or_eq_true, Bool.and_eq_true,
      decide_eq_true_eq] at h1 h2 ⊢
    rcases h1 with h1 | ⟨hxy, h1⟩
    · rcases h2 with h2 | ⟨hyz, h2⟩
      · exact Or.inl (charLtb_trans h1 h2)
      · exact Or.inl (hyz ▸ h1)
    · rcases h2 with h2 | ⟨hyz, h2⟩
      · exact Or.inl (hxy ▸ h2)
      · exact Or.inr ⟨hxy.trans hyz, strLtList_trans h1 h2⟩

theorem strLtList_eq_of_not : ∀ {a b : List Char},
    strLtList a b = false → strLtList b a = false → a = b
  | [], [], _, _ => rfl
  | [], _ :: _, h1, _ => by simp [strLtList] at h1
  | _ :: _, [], _, h2 => by simp [strLtList] at h2
  | x :: xs, y :: ys, h1, h2 => by
    simp only [strLtList, Bool.or_eq_false_iff, Bool.and_eq_false_iff,
      decide_eq_false_iff_not] at h1 h2
    have hxy : x = y := charLtb_eq_of_not h1.1 h2.1
    subst hxy
    rcases h1.2 with h | h
    · exact absurd rfl h
    · rcases h2.2 with h2r | h2r
      · exact absurd rfl h2r
      · rw [strLtList_eq_of_not h h2r]

theorem strLtb_trans {a b c : String} (h1 : strLtb a b = true)
    (h2 : strLtb b c = true) : strLtb a c = true :=
  strLtList_trans h1 h2

theorem str_eq_of_not_ltb {a b : String} (h1 : strLtb a b = false)
    (h2 : strLtb b a = false) : a = b := by
  have hd : a.data = b.data := strLtList_eq_of_not h1 h2
  cases a
  cases b
  cases hd
  rfl

theorem strLeb_iff (a b : String) :
    strLeb a b = true ↔ strLtb a b = true ∨ a = b := by
  simp [strLeb, beq_iff_eq]

theorem strLeb_total (a b : String) :
    strLeb a b = true ∨ strLeb b a = true := by
  cases h1 : strLtb a b
  · cases h2 : strLtb b a
    · exact Or.inl ((strLeb_iff a b).2 (Or.inr (str_eq_of_not_ltb h1 h2)))
    · exact Or.inr ((strLeb_iff b a).2 (Or.inl h2))
  · exact Or.inl ((strLeb_iff a b).2 (Or.inl h1))

theorem strLeb_trans {a b c : String} (h1 : strLeb a b = true)
    (h2 : strLeb b c = true) : strLeb a c = true := by
  rcases (strLeb_iff a b).1 h1 with h1 | rfl
  · rcases (strLeb_iff b c).1 h2 with h2 | rfl
    · exact (strLeb_iff a c).2 (Or.inl (strLtb_trans h1 h2))
    · exact (strLeb_iff a b).2 (Or.inl h1)
  · exact h2

theorem keyLEb_iff (a b : String × String) :
    keyLEb a b = true ↔
      strLtb a.1 b.1 = true ∨ (a.1 = b.1 ∧ strLeb a.2 b.2 = true) := by
  simp [keyLEb, beq_iff_eq]

theorem keyLEb_total (a b : String × String) :
    keyLEb a b = true ∨ keyLEb b a = true := by
  cases h1 : strLtb a.1 b.1
  · cases h2 : strLtb b.1 a.1
    · have he : a.1 = b.1 := str_eq_of_not_ltb h1 h2
      rcases strLeb_total a.2 b.2 with h | h
      · exact Or.inl ((keyLEb_iff a b).2 (Or.inr ⟨he, h⟩))
      · exact Or.inr ((keyLEb_iff b a).2 (Or.inr ⟨he.symm, h⟩))
    · exact Or.inr ((keyLEb_iff b a).2 (Or.inl h2))
  · exact Or.inl ((keyLEb_iff a b).2 (Or.inl h1))

theorem keyLEb_trans {a b c : String × String} (h1 : keyLEb a b = true)
    (h2 : keyLEb b c = true) : keyLEb a c = true := by
  rcases (keyLEb_iff a b).1 h1 with h1 | ⟨he1, hl1⟩
  · rcases (keyLEb_iff b c).1 h2 with h2 | ⟨he2, hl2⟩
    · exact (keyLEb_iff a c).2 (Or.inl (strLtb_trans h1 h2))
    · exact (keyLEb_iff a c).2 (Or.inl (he2 ▸ h1))
  · rcases (keyLEb_iff b c).1 h2 with h2 | ⟨he2, hl2⟩
    · exact (keyLEb_iff a c).2 (Or.inl (he1 ▸ h2))
    · exact (keyLEb_iff a c).2 (Or.inr ⟨he1.trans he2, strLeb_trans hl1 hl2⟩)

theorem entryLEb_total (p q : String × Entry) :
    entryLEb p q = true ∨ entryLEb q p = true :=
  keyLEb_total (sortKey p) (sortKey q)

theorem entryLEb_trans {p q r : String × Entry} (h1 : entryLEb p q = true)
    (h2 : entryLEb q r = true) : entryLEb p r = true :=
  keyLEb_trans h1 h2

/-! ### Insertion-sort lemmas -/

theorem mem_insertSorted (x y : String × Entry) :
    ∀ l : List (String × Entry), y ∈ insertSorted x l ↔ y = x ∨ y ∈ l
  | [] => by simp [insertSorted]
  | z :: zs => by
    by_cases h : entryLEb x z = true
    · rw [show insertSorted x (z :: zs) = x :: z :: zs from by
        simp [insertSorted, h]]
      simp [List.mem_cons]
    · rw [show insertSorted x (z :: zs) = z :: insertSorted x zs from by
        simp [insertSorted, h]]
      simp only [List.mem_cons, mem_insertSorted x y zs]
      tauto

theorem insertSorted_perm (x : String × Entry) :
    ∀ l : List (String × Entry), (insertSorted x l).Perm (x :: l)
  | [] => List.Perm.refl _
  | z :: zs => by
    by_cases h : entryLEb x z = true
    · simp [insertSorted, h]
    · simp only [insertSorted, if_neg h]
      exact ((insertSorted_perm x zs).cons z).trans (List.Perm.swap x z zs)

theorem pairwise_insertSorted (x : String × Entry) :
    ∀ l : List (String × Entry),
      l.Pairwise (fun p q => entryLEb p q = true) →
      (insertSorted x l).Pairwise (fun p q => entryLEb p q = true)
  | [], _ => by simp [insertSorted]
  | z :: zs, h => by
    rcases List.pairwise_cons.1 h with ⟨hz, hzs⟩
    by_cases hle : entryLEb x z = true
    · rw [show insertSorted x (z :: zs) = x :: z :: zs from by
        simp [insertSorted, hle]]
      refine List.pairwise_cons.2 ⟨?_, h⟩
      intro q hq
      rcases List.mem_cons.1 hq with rfl | hq
      · exact hle
      · exact entryLEb_trans hle (hz q hq)
    · have hzx : entryLEb z x = true :=
        (entryLEb_total x z).resolve_left hle
      rw [show insertSorted x (z :: zs) = z :: insertSorted x zs from by
        simp [insertSorted, hle]]
      refine List.pairwise_cons.2 ⟨?_, pairwise_insertSorted x zs hzs⟩
      intro q hq
      rcases (mem_insertSorted x q zs).1 hq with rfl | hq
      · exact hzx
      · exact hz q hq

theorem sortEntries_perm (l : List (String × Entry)) :
    (sortEntries l).Perm l := by
  induction l with
  | nil => exact List.Perm.refl _
  | cons x xs ih =>
    exact (insertSorted_perm x (sortEntries xs)).trans (ih.cons x)

theorem sortEntries_pairwise (l : List (String × Entry)) :
    (sortEntries l).Pairwise (fun p q => entryLEb p q = true) := by
  induction l with
  | nil => simp [sortEntries]
  | cons x xs ih => exact pairwise_insertSorted x (sortEntries xs) ih

/-! ### Cyclic-successor lemmas for next_key / prev_key -/

theorem dropWhile_bne_of_nodup :
    ∀ (l : List String), l.Nodup → ∀ i, i < l.length →
      l.dropWhile (fun k => k != l.getD i "") = l.drop i
  | [], _, i, hi => by simp at hi
  | a :: as, hnd, 0, _ => by
    simp [List.dropWhile_cons]
  | a :: as, hnd, i + 1, hi => by
    rcases List.nodup_cons.1 hnd with ⟨hna, hnd2⟩
    have hia : i < as.length := by simpa using hi
    have hmem : as.getD i "" ∈ as := by
      rw [List.getD_eq_getElem?_getD, List.getElem?_eq_getElem hia]
      exact List.getElem_mem hia
    have hne : a ≠ as.getD i "" := fun e => hna (e ▸ hmem)
    rw [List.getD_cons_succ, List.dropWhile_cons]
    simp only [bne_iff_ne, ne_eq, hne, not_false_eq_true, if_pos]
    rw [List.drop_succ_cons]
    exact dropWhile_bne_of_nodup as hnd2 i hia

theorem getD_append_left {l1 l2 : List String} {n : ℕ} (h : n < l1.length)
    (d : String) : (l1 ++ l2).getD n d = l1.getD n d := by
  rw [List.getD_eq_getElem?_getD, List.getD_eq_getElem?_getD,
      List.getElem?_append, if_pos h]

theorem cyclicNext_getD (l : List String) (hnd : l.Nodup) (i : ℕ)
    (hi : i < l.length) :
    ((l.dropWhile (fun k => k != l.getD i "")) ++ l ++ l).getD 1 "" =
      l.getD ((i + 1) % l.length) "" := by
  rw [dropWhile_bne_of_nodup l hnd i hi, List.drop_eq_getElem_cons hi,
      List.cons_append, List.cons_append, List.getD_cons_succ]
  by_cases hlt : i + 1 < l.length
  · rw [Nat.mod_eq_of_lt hlt, List.drop_eq_getElem_cons hlt,
        List.cons_append, List.cons_append, List.getD_cons_zero,
        List.getD_eq_getElem?_getD, List.getElem?_eq_getElem hlt]
    rfl
  · have hlen : i + 1 = l.length := by omega
    rw [hlen, Nat.mod_self, List.drop_length, List.nil_append]
    exact getD_append_left (by omega) ""

theorem getD_reverse (l : List String) (j : ℕ) (hj : j < l.length)
    (d : String) : l.reverse.getD j d = l.getD (l.length - 1 - j) d := by
  have hj2 : j < l.reverse.length := by simpa using hj
  have hb : l.length - 1 - j < l.length := by omega
  rw [List.getD_eq_getElem?_getD, List.getElem?_eq_getElem hj2,
      List.getElem_reverse, List.getD_eq_getElem?_getD,
      List.getElem?_eq_getElem hb]

theorem prev_index_arith (len i : ℕ) (hi : i < len) :
    len - 1 - ((len - 1 - i + 1) % len) = (i + len - 1) % len := by
  rcases Nat.eq_zero_or_pos i with rfl | hpos
  · have h1 : len - 1 - 0 + 1 = len := by omega
    rw [h1, Nat.mod_self, Nat.zero_add, Nat.mod_eq_of_lt (by omega)]
    omega
  · have h2 : len - 1 - i + 1 = len - i := by omega
    rw [h2, Nat.mod_eq_of_lt (by omega)]
    have h3 : i + len - 1 = (i - 1) + len := by omega
    rw [h3, Nat.add_mod_right, Nat.mod_eq_of_lt (by omega)]
    omega

/-! ### C2 -/

/-- A fixture registry with three entities inserted out of order:
sorted iteration yields `["S", "A", "B"]` because the kind string
`"Device"` sorts before `"Stream"`. -/
def mFix2 : Menu :=
  { entries := [("B", ("Stream", "/1")), ("A", ("Stream", "/2")),
                ("S", ("Device", "/3"))]
    maxKeyLen := 1, uniqueIdx := 0, volCache := [], muteCache := [],
    updates := [] }

/-- C2: iteration yields the registered display names sorted by
`(kind, displayName)` (a permutation of the dict's keys, pairwise
ordered by the `_sort_key` comparison) independent of insertion order;
for every position `i` of the sorted order, `nextKey` returns the
cyclic successor and `prevKey` the cyclic predecessor; on an empty
registry both return the empty string for every argument. -/
theorem iter_sorted_next_prev_cyclic (m : Menu)
    (hnd : (m.entries.map Prod.fst).Nodup) :
    (sortEntries m.entries).Pairwise (fun p q => entryLEb p q = true) ∧
    (menuIter m).Perm (m.entries.map Prod.fst) ∧
    (∀ i, i < (menuIter m).length →
      nextKey m ((menuIter m).getD i "") =
        (menuIter m).getD ((i + 1) % (menuIter m).length) "" ∧
      prevKey m ((menuIter m).getD i "") =
        (menuIter m).getD
          ((i + (menuIter m).length - 1) % (menuIter m).length) "") ∧
    (m.entries = [] → ∀ item, nextKey m item = "" ∧ prevKey m item = "") := by
  have hperm : (menuIter m).Perm (m.entries.map Prod.fst) :=
    (sortEntries_perm m.entries).map Prod.fst
  have hnd2 : (menuIter m).Nodup := hperm.nodup_iff.2 hnd
  refine ⟨sortEntries_pairwise m.entries, hperm, ?_, ?_⟩
  · intro i hi
    constructor
    · exact cyclicNext_getD (menuIter m) hnd2 i hi
    · have hrev : (menuIter m).reverse.Nodup := List.nodup_reverse.2 hnd2
      have hj : (menuIter m).length - 1 - i < (menuIter m).reverse.length := by
        simp only [List.length_reverse]
        omega
      have hitem : (menuIter m).reverse.getD ((menuIter m).length - 1 - i) ""
          = (menuIter m).getD i "" := by
        rw [getD_reverse (menuIter m) _ (by omega)]
        congr 1
        omega
      have hcyc := cyclicNext_getD (menuIter m).reverse hrev
        ((menuIter m).length - 1 - i) hj
      rw [hitem] at hcyc
      show ((menuIter m).reverse.dropWhile
          (fun k => k != (menuIter m).getD i "")
          ++ (menuIter m).reverse ++ (menuIter m).reverse).getD 1 "" = _
      rw [hcyc, List.length_reverse,
          getD_reverse (menuIter m) _ (Nat.mod_lt _ (by omega)),
          prev_index_arith (menuIter m).length i hi]
  · intro hempty item
    constructor <;>
      simp [nextKey, prevKey, menuIter, menuIterRev, sortEntries, hempty,
        List.dropWhile]

theorem iter_sorted_next_prev_cyclic_witness :
    (sortEntries mFix2.entries).Pairwise (fun p q => entryLEb p q = true) ∧
    (menuIter mFix2).Perm (mFix2.entries.map Prod.fst) ∧
    (nextKey mFix2 ((menuIter mFix2).getD 0 "") =
       (menuIter mFix2).getD ((0 + 1) % (menuIter mFix2).length) "") ∧
    (prevKey mFix2 ((menuIter mFix2).getD 0 "") =
       (menuIter mFix2).getD
         ((0 + (menuIter mFix2).length - 1) % (menuIter mFix2).length) "") ∧
    (nextKey mFix2 ((menuIter mFix2).getD 2 "") =
       (menuIter mFix2).getD ((2 + 1) % (menuIter mFix2).length) "") := by
  have h := iter_sorted_next_prev_cyclic mFix2 (by decide)
  exact ⟨h.1, h.2.1, (h.2.2.1 0 (by decide)).1, (h.2.2.1 0 (by decide)).2,
         (h.2.2.1 2 (by decide)).1⟩

/-! ### Deterministic naming: the fragment with no unique-counter use -/

/-- A stream property list whose derived name is deterministic:
`application.name` is present (so `_get_name` never reaches the
unique-counter fallback). -/
def detStreamProps (props : List (String × String)) : Prop :=
  (alookup props "application.name").isSome

/-- A sink property list whose derived name is deterministic:
`alsa.id`, or both `device.api` and `device.string`, present. -/
def detSinkProps (props : List (String × String)) : Prop :=
  (alookup props "alsa.id").isSome ∨
    ((alookup props "device.api").isSome ∧
     (alookup props "device.string").isSome)

/-- The remote snapshot derives all display names deterministically
(no unique-counter suffix is ever consumed): media-name mode is off
and every snapshot object has the deterministic properties. -/
def deterministicNames (ctx : Ctx) (rm : Remote) : Prop :=
  ctx.useMediaName = false ∧
  (∀ p ∈ rm.streams, ∃ props, rm.props p = some props ∧ detStreamProps props) ∧
  (∀ p ∈ rm.sinks, ∃ props, rm.props p = some props ∧ detSinkProps props)

theorem getName_stream_det (ctx : Ctx) (hm : ctx.useMediaName = false)
    (props : List (String × String)) (n : String)
    (h : alookup props "application.name" = some n) :
    ∀ idx, getName ctx idx "Stream" props =
      .ok (withExt n (extSuffix "Stream" props), idx) := by
  intro idx
  simp [getName, getNameBase, hm, h]

theorem getName_device_det1 (ctx : Ctx) (props : List (String × String))
    (n : String) (h : alookup props "alsa.id" = some n) :
    ∀ idx, getName ctx idx "Device" props =
      .ok (withExt n (extSuffix "Device" props), idx) := by
  intro idx
  simp [getName, getNameBase, h]

theorem getName_device_det2 (ctx : Ctx) (props : List (String × String))
    (a s : String) (h0 : alookup props "alsa.id" = none)
    (h1 : alookup props "device.api" = some a)
    (h2 : alookup props "device.string" = some s) :
    ∀ idx, getName ctx idx "Device" props =
      .ok (withExt (a ++ "." ++ s) (extSuffix "Device" props), idx) := by
  intro idx
  simp [getName, getNameBase, h0, h1, h2]

theorem addCore_det (ctx : Ctx) (rm : Remote) (hm : ctx.useMediaName = false)
    (path iface : String) (props : List (String × String))
    (hp : rm.props path = some props) (name : String)
    (hgn : ∀ idx, getName ctx idx iface props = .ok (name, idx)) :
    ∀ m, addCore ctx rm m path iface =
      .ok (name, { m with
        entries := dictSet m.entries name (iface, path)
        maxKeyLen := if name.length > m.maxKeyLen then name.length
          else m.maxKeyLen }) := by
  intro m
  unfold addCore
  rw [hp]
  dsimp only
  rw [hgn m.uniqueIdx]
  dsimp only
  rw [hm]

/-- The cumulative effect of a run of deterministic `add` calls:
each one is a dict assignment plus a `max_key_len` bump. -/
def applyAdds (m : Menu) (pairs : List (String × Entry)) : Menu :=
  pairs.foldl (fun mm pr =>
    { mm with
      entries := dictSet mm.entries pr.1 pr.2
      maxKeyLen := if pr.1.length > mm.maxKeyLen then pr.1.length
        else mm.maxKeyLen }) m

theorem applyAdds_entries :
    ∀ (pairs : List (String × Entry)) (m : Menu),
      (applyAdds m pairs).entries =
        pairs.foldl (fun d pr => dictSet d pr.1 pr.2) m.entries
  | [], m => by simp [applyAdds]
  | pr :: ps, m => by
    simp only [applyAdds, List.foldl_cons]
    exact applyAdds_entries ps _

theorem addFold_det (ctx : Ctx) (rm : Remote) (hm : ctx.useMediaName = false)
    (iface : String) :
    ∀ paths : List String,
      (∀ p ∈ paths, ∃ props name, rm.props p = some props ∧
        ∀ idx, getName ctx idx iface props = .ok (name, idx)) →
      ∃ pairs : List (String × Entry),
        ∀ m, addFold ctx rm iface paths m =
          .ok (pairs.map Prod.fst, applyAdds m pairs)
  | [], _ => ⟨[], fun m => by simp [addFold, applyAdds]⟩
  | p :: ps, hall => by
    obtain ⟨props, name, hp, hgn⟩ := hall p (List.mem_cons_self p ps)
    obtain ⟨pairs, hps⟩ := addFold_det ctx rm hm iface ps
      (fun q hq => hall q (List.mem_cons_of_mem p hq))
    refine ⟨(name, (iface, p)) :: pairs, fun m => ?_⟩
    have hac := addCore_det ctx rm hm p iface props hp name hgn m
    simp only [addFold, hac, hps, List.map_cons]
    rfl

theorem alookup_append_or {α : Type} (xs ys : List (String × α))
    (k : String) :
    alookup (xs ++ ys) k = (alookup xs k).or (alookup ys k) := by
  induction xs with
  | nil => simp [alookup, Option.or]
  | cons p ps ih =>
    by_cases hp : p.1 = k
    · simp [alookup, hp, Option.or]
    · simp [alookup, hp, ih]

theorem alookup_foldl_dictSet {α : Type} (ps : List (String × α)) :
    ∀ (d : List (String × α)) (k : String),
      alookup (ps.foldl (fun d pr => dictSet d pr.1 pr.2) d) k =
        (alookup ps.reverse k).or (alookup d k) := by
  induction ps with
  | nil => simp [alookup, Option.or]
  | cons pr ps ih =>
    intro d k
    simp only [List.foldl_cons, List.reverse_cons]
    rw [ih, alookup_append_or, Option.or_assoc, alookup_dictSet]
    by_cases hp : pr.1 = k
    · simp [alookup, hp, Option.or]
    · simp [alookup, hp, Option.or]

theorem refreshSoft_det (ctx : Ctx) (rm : Remote)
    (hdet : deterministicNames ctx rm) :
    ∃ spairs dpairs : List (String × Entry),
      ∀ m, refreshSoft ctx rm m =
        .ok (applyAdds
          (applyAdds { m with volCache := [], muteCache := [], maxKeyLen := 0 }
            spairs) dpairs) := by
  obtain ⟨hm, hstreams, hsinks⟩ := hdet
  have hs : ∀ p ∈ rm.streams, ∃ props name, rm.props p = some props ∧
      ∀ idx, getName ctx idx "Stream" props = .ok (name, idx) := by
    intro p hp
    obtain ⟨props, hpr, hdet1⟩ := hstreams p hp
    obtain ⟨n, hn⟩ := Option.isSome_iff_exists.1 hdet1
    exact ⟨props, _, hpr, getName_stream_det ctx hm props n hn⟩
  have hd : ∀ p ∈ rm.sinks, ∃ props name, rm.props p = some props ∧
      ∀ idx, getName ctx idx "Device" props = .ok (name, idx) := by
    intro p hp
    obtain ⟨props, hpr, hdet1⟩ := hsinks p hp
    cases halsa : alookup props "alsa.id" with
    | some n => exact ⟨props, _, hpr, getName_device_det1 ctx props n halsa⟩
    | none =>
      have h2 : (alookup props "device.api").isSome ∧
          (alookup props "device.string").isSome := by
        rcases hdet1 with h1 | h2
        · rw [halsa] at h1
          exact absurd h1 (by simp)
        · exact h2
      obtain ⟨a, ha⟩ := Option.isSome_iff_exists.1 h2.1
      obtain ⟨sv, hsv⟩ := Option.isSome_iff_exists.1 h2.2
      exact ⟨props, _, hpr, getName_device_det2 ctx props a sv halsa ha hsv⟩
  obtain ⟨spairs, hsf⟩ := addFold_det ctx rm hm "Stream" rm.streams hs
  obtain ⟨dpairs, hdf⟩ := addFold_det ctx rm hm "Device" rm.sinks hd
  refine ⟨spairs, dpairs, fun m => ?_⟩
  simp only [refreshSoft, hsf, hdf]
  have hstale : (spairs.map Prod.fst).filter
      (fun n => (alookup (applyAdds
        (applyAdds { m with volCache := [], muteCache := [], maxKeyLen := 0 }
          spairs) dpairs).entries n).isNone) = [] := by
    rw [List.filter_eq_nil_iff]
    intro n hn
    rw [applyAdds_entries, applyAdds_entries, alookup_foldl_dictSet,
        alookup_foldl_dictSet]
    have hmem : n ∈ spairs.reverse.map Prod.fst := by
      rw [List.map_reverse, List.mem_reverse]
      exact hn
    obtain ⟨v, hv⟩ := Option.isSome_iff_exists.1
      ((alookup_isSome_iff_mem spairs.reverse n).2 hmem)
    rw [hv]
    cases alookup dpairs.reverse n <;> simp [Option.or]
  rw [hstale]
  rfl

theorem alookup_applyAdds2 (sp dp : List (String × Entry)) (x : Menu)
    (k : String) :
    alookup (applyAdds (applyAdds x sp) dp).entries k =
      (alookup dp.reverse k).or
        ((alookup sp.reverse k).or (alookup x.entries k)) := by
  rw [applyAdds_entries, applyAdds_entries, alookup_foldl_dictSet,
      alookup_foldl_dictSet]

/-- C5 (amended): when the remote snapshot derives every display name
deterministically (media-name mode off, every stream has
`application.name`, every sink has `alsa.id` or `device.api` +
`device.string` — i.e. the unique counter is never consumed), two
consecutive `refresh(soft=True)` calls with no topology change both
succeed and produce state with identical entity maps (the same display
names bound to the same `(kind, handle)` entries).  Without that
restriction the counter-suffixed names differ between the two passes
(see the counterexample). -/
theorem refresh_soft_idempotent_when_deterministic (ctx : Ctx)
    (rm : Remote) (m : Menu) (hdet : deterministicNames ctx rm) :
    ∃ m1 m2, refreshSoft ctx rm m = .ok m1 ∧ refreshSoft ctx rm m1 = .ok m2 ∧
      ∀ name, alookup m2.entries name = alookup m1.entries name := by
  obtain ⟨spairs, dpairs, hrs⟩ := refreshSoft_det ctx rm hdet
  refine ⟨_, _, hrs m, hrs _, fun name => ?_⟩
  rw [alookup_applyAdds2]
  dsimp only
  rw [alookup_applyAdds2]
  cases alookup dpairs.reverse name <;>
    cases alookup spairs.reverse name <;> simp [Option.or]

/-- The fixture `rmFix1` snapshot is deterministic: media-name mode
off, and its single stream carries `application.name`. -/
theorem detFix1 : deterministicNames ⟨false⟩ rmFix1 := by
  refine ⟨rfl, ?_, ?_⟩
  · intro p hp
    rcases List.mem_singleton.1 hp with rfl
    exact ⟨[("application.name", "NewApp")], rfl, by simp [detStreamProps, alookup]⟩
  · intro p hp
    simp [rmFix1] at hp

theorem refresh_soft_idempotent_when_deterministic_witness :
    ∃ m1 m2, refreshSoft ⟨false⟩ rmFix1 mFix1 = .ok m1 ∧
      refreshSoft ⟨false⟩ rmFix1 m1 = .ok m2 ∧
      ∀ name, alookup m2.entries name = alookup m1.entries name :=
  refresh_soft_idempotent_when_deterministic ⟨false⟩ rmFix1 mFix1 detFix1

/-! ### C9: key-uniqueness invariant machinery -/

theorem nodup_keys_addCore (ctx : Ctx) (rm : Remote) (m : Menu)
    (path iface : String) (h : (m.entries.map Prod.fst).Nodup) :
    ∀ name m2, addCore ctx rm m path iface = .ok (name, m2) →
      (m2.entries.map Prod.fst).Nodup := by
  intro name m2 hadd
  unfold addCore at hadd
  split at hadd
  · exact absurd hadd (by simp)
  · split at hadd
    · exact absurd hadd (by simp)
    · split at hadd
      · simp only [Except.ok.injEq, Prod.mk.injEq] at hadd
        rw [← hadd.2]
        exact nodup_keys_dictSet _ _ _
          (nodup_keys_dictSet _ _ _ (nodup_keys_dictDel _ _ h))
      · simp only [Except.ok.injEq, Prod.mk.injEq] at hadd
        rw [← hadd.2]
        exact nodup_keys_dictSet _ _ _ h

theorem nodup_keys_removeCore (m : Menu) (path : String)
    (h : (m.entries.map Prod.fst).Nodup) :
    ((removeCore m path).entries.map Prod.fst).Nodup := by
  unfold removeCore
  split
  · exact h
  · exact nodup_keys_dictDel _ _ h

theorem nodup_keys_addFold (ctx : Ctx) (rm : Remote) (iface : String) :
    ∀ (paths : List String) (m : Menu),
      (m.entries.map Prod.fst).Nodup →
      ∀ ns m2, addFold ctx rm iface paths m = .ok (ns, m2) →
        (m2.entries.map Prod.fst).Nodup
  | [], m, h, ns, m2, hf => by
    simp only [addFold, Except.ok.injEq, Prod.mk.injEq] at hf
    rw [← hf.2]
    exact h
  | p :: ps, m, h, ns, m2, hf => by
    simp only [addFold] at hf
    split at hf
    · exact absurd hf (by simp)
    · rename_i n1 r hr
      split at hf
      · exact absurd hf (by simp)
      · rename_i ns2 r2 hr2
        simp only [Except.ok.injEq, Prod.mk.injEq] at hf
        rw [← hf.2]
        exact nodup_keys_addFold ctx rm iface ps r
          (nodup_keys_addCore ctx rm m p iface h n1 r hr) ns2 r2 hr2

theorem nodup_keys_refreshSoft (ctx : Ctx) (rm : Remote) (m : Menu)
    (h : (m.entries.map Prod.fst).Nodup) :
    ∀ m2, refreshSoft ctx rm m = .ok m2 →
      (m2.entries.map Prod.fst).Nodup := by
  intro m2 hf
  unfold refreshSoft at hf
  split at hf
  · exact absurd hf (by simp)
  · rename_i sn r hr
    split at hf
    · exact absurd hf (by simp)
    · rename_i dn r2 hr2
      split at hf
      · simp only [Except.ok.injEq] at hf
        rw [← hf]
        exact nodup_keys_addFold ctx rm "Device" rm.sinks r
          (nodup_keys_addFold ctx rm "Stream" rm.streams
            { m with volCache := [], muteCache := [], maxKeyLen := 0 }
            h sn r hr)
          dn r2 hr2
      · exact absurd hf (by simp)

theorem nodup_keys_refreshHard (ctx : Ctx) (rm : Remote) (m : Menu) :
    ∀ m2, refreshHard ctx rm m = .ok m2 →
      (m2.entries.map Prod.fst).Nodup := by
  intro m2 hf
  unfold refreshHard at hf
  split at hf
  · exact absurd hf (by simp)
  · rename_i sn r hr
    split at hf
    · exact absurd hf (by simp)
    · rename_i dn r2 hr2
      simp only [Except.ok.injEq] at hf
      rw [← hf]
      exact nodup_keys_addFold ctx rm "Device" rm.sinks r
        (nodup_keys_addFold ctx rm "Stream" rm.streams
          { m with entries := [], volCache := [], muteCache := [],
                   maxKeyLen := 0 }
          (by simp) sn r hr)
        dn r2 hr2

theorem nodup_keys_updateStep (ctx : Ctx) (rm : Remote) (m : Menu)
    (ev : String × String) (h : (m.entries.map Prod.fst).Nodup) :
    ∀ m2, updateStep ctx rm m ev = .ok m2 →
      (m2.entries.map Prod.fst).Nodup := by
  intro m2 hs
  unfold updateStep at hs
  split_ifs at hs
  · cases hc : addCore ctx rm m ev.2 "Stream" with
    | error e => rw [hc] at hs; exact absurd hs (by simp [Except.map])
    | ok r =>
      rw [hc] at hs
      simp only [Except.map, Except.ok.injEq] at hs
      rw [← hs]
      exact nodup_keys_addCore ctx rm m ev.2 "Stream" h r.1 r.2 (by rw [hc])
  · simp only [Except.ok.injEq] at hs
    rw [← hs]
    exact nodup_keys_removeCore m ev.2 h
  · cases hc : addCore ctx rm m ev.2 "Sink" with
    | error e => rw [hc] at hs; exact absurd hs (by simp [Except.map])
    | ok r =>
      rw [hc] at hs
      simp only [Except.map, Except.ok.injEq] at hs
      rw [← hs]
      exact nodup_keys_addCore ctx rm m ev.2 "Sink" h r.1 r.2 (by rw [hc])
  · simp only [Except.ok.injEq] at hs
    rw [← hs]
    exact nodup_keys_removeCore m ev.2 h

theorem nodup_keys_updateGo (ctx : Ctx) (rm : Remote) :
    ∀ (evs : List (String × String)) (m : Menu),
      (m.entries.map Prod.fst).Nodup →
      ∀ m2, updateGo ctx rm evs m = .ok m2 →
        (m2.entries.map Prod.fst).Nodup
  | [], m, h, m2, hg => by
    simp only [updateGo, Except.ok.injEq] at hg
    rw [← hg]
    exact h
  | ev :: evs, m, h, m2, hg => by
    simp only [updateGo] at hg
    split at hg
    · exact absurd hg (by simp)
    · rename_i r hr
      exact nodup_keys_updateGo ctx rm evs r
        (nodup_keys_updateStep ctx rm m ev h r (by rw [hr])) m2 hg

theorem nodup_keys_update (ctx : Ctx) (rm : Remote) (m : Menu)
    (h : (m.entries.map Prod.fst).Nodup) :
    ∀ m2, update ctx rm m = .ok m2 → (m2.entries.map Prod.fst).Nodup := by
  intro m2 hu
  exact nodup_keys_updateGo ctx rm m.updates { m with updates := [] } h m2 hu

/-- Registry operations observable at the UI loop: the event-driven
`add`/`remove`, a queue drain, and the two refresh flavours.  An
operation that raises leaves the registry as recorded at the abort
point (for `add`/`remove`/`update` the state is unchanged up to the
failed call; a failed refresh aborts the whole frame). -/
inductive POp where
  | addOp (path iface : String)
  | removeOp (path : String)
  | updateOp
  | refreshSoftOp
  | refreshHardOp

/-- One observable registry transition. -/
def step (ctx : Ctx) (rm : Remote) (m : Menu) : POp → Menu
  | .addOp path iface =>
    match addCore ctx rm m path iface with
    | .ok r => r.2
    | .error _ => m
  | .removeOp path => removeCore m path
  | .updateOp =>
    match update ctx rm m with
    | .ok m2 => m2
    | .error _ => m
  | .refreshSoftOp =>
    match refreshSoft ctx rm m with
    | .ok m2 => m2
    | .error _ => m
  | .refreshHardOp =>
    match refreshHard ctx rm m with
    | .ok m2 => m2
    | .error _ => m

/-- All observation points of a run: the initial state and the state
after each operation. -/
def run (ctx : Ctx) (rm : Remote) : Menu → List POp → List Menu
  | m, [] => [m]
  | m, o :: os => m :: run ctx rm (step ctx rm m o) os

theorem nodup_keys_step (ctx : Ctx) (rm : Remote) (m : Menu) (op : POp)
    (h : (m.entries.map Prod.fst).Nodup) :
    ((step ctx rm m op).entries.map Prod.fst).Nodup := by
  cases op with
  | addOp path iface =>
    dsimp only [step]
    split
    · rename_i r hr
      exact nodup_keys_addCore ctx rm m path iface h r.1 r.2 (by rw [hr])
    · exact h
  | removeOp path => exact nodup_keys_removeCore m path h
  | updateOp =>
    dsimp only [step]
    split
    · rename_i m2 hm2
      exact nodup_keys_update ctx rm m h m2 hm2
    · exact h
  | refreshSoftOp =>
    dsimp only [step]
    split
    · rename_i m2 hm2
      exact nodup_keys_refreshSoft ctx rm m h m2 hm2
    · exact h
  | refreshHardOp =>
    dsimp only [step]
    split
    · rename_i m2 hm2
      exact nodup_keys_refreshHard ctx rm m m2 hm2
    · exact h

/-- C9: along every sequence of `add`, `remove`, `update` and
`refresh` operations, the display names of the registered entities are
pairwise distinct at every observation point (the registry is a dict,
and every mutation goes through key-respecting dict updates). -/
theorem registry_names_pairwise_distinct (ctx : Ctx) (rm : Remote)
    (m0 : Menu) (ops : List POp)
    (h0 : (m0.entries.map Prod.fst).Nodup) :
    (run ctx rm m0 ops).Forall
      (fun m => (m.entries.map Prod.fst).Nodup) := by
  induction ops generalizing m0 with
  | nil =>
    simp only [run, List.Forall]
    exact h0
  | cons o os ih =>
    simp only [run]
    rw [List.forall_cons]
    exact ⟨h0, ih (step ctx rm m0 o) (nodup_keys_step ctx rm m0 o h0)⟩

theorem registry_names_pairwise_distinct_witness :
    (run ⟨false⟩ rmFix1 mFix1
      [POp.refreshSoftOp, POp.addOp "/new" "Stream",
       POp.removeOp "/old"]).Forall
      (fun m => (m.entries.map Prod.fst).Nodup) :=
  registry_names_pairwise_distinct ⟨false⟩ rmFix1 mFix1
    [POp.refreshSoftOp, POp.addOp "/new" "Stream", POp.removeOp "/old"]
    (by decide)
